import Mathlib

/-!
Verification of the process & session lifecycle subsystem of the SoulOS
desktop shell (src-tauri/src/pty.rs and src-tauri/src/sidecar.rs).

The Rust code is shallowly embedded:

* `PtyMgr` models the session registry of `PtyManager` (pty.rs): handle
  allocation in `create`, the registry mutations of `write`, `resize`,
  `close` and `shutdown`.  I/O outcomes that the OS decides (PTY open
  failure, spawn failure, thread-spawn failure) are oracle parameters.
* `PtyFlush` models the shared output buffer and the reader/flusher
  thread pair of `PtyManager::create` as a labelled transition system
  whose atomic steps are exactly the lock-protected (or single-load)
  sections of the two threads.
* `Sidecar` models `SidecarProcess` records and the operations of
  `SidecarManager` (sidecar.rs); child liveness is part of the state and
  an explicit environment step models the child exiting on its own,
  which is what `try_wait` observes.
-/

namespace PtyMgr

/-- Outcome of the OS-dependent part of `PtyManager::create` (pty.rs).
`failBeforeAlloc` covers `openpty`, `spawn_command`, `take_writer` and
`try_clone_reader` failing — all before the id allocation at pty.rs:120.
`failAfterAlloc` covers `thread::Builder::spawn` failing — after the id
allocation, so the id is consumed but no session is registered. -/
inductive CreateOutcome where
  | failBeforeAlloc
  | failAfterAlloc
  | success
deriving DecidableEq, Repr

/-- Registry state of `PtyManager` (pty.rs:16-20): `next` is `next_id`
(initialised to 1 in `PtyManager::new`), `sessions` the keys of the
session map.  `killed` is a ghost log of the children killed by
`close`/`shutdown`. -/
structure MgrState where
  next : Nat
  sessions : List Nat
  killed : List Nat
deriving DecidableEq, Repr

/-- `PtyManager::new` (pty.rs:29-35): `next_id = 1`, empty map. -/
def initMgr : MgrState := { next := 1, sessions := [], killed := [] }

/-- `next_id` is a `u32`, so the increment `*next += 1` at pty.rs:123
wraps modulo `2^32` (release-build semantics). -/
def u32Mod : Nat := 2 ^ 32

/-- `PtyManager::create` (pty.rs:37-230): failures before the id
allocation leave the state unchanged; a thread-spawn failure after the
allocation consumes the id but registers nothing; on success the id is
allocated, `next_id` incremented with `u32` wraparound, and the session
inserted (`HashMap::insert` replaces the value of an existing key, so
the key set gains `id` only if absent). -/
def createFn (st : MgrState) (o : CreateOutcome) : Except String Nat × MgrState :=
  match o with
  | .failBeforeAlloc => (.error "Failed to open PTY", st)
  | .failAfterAlloc =>
      (.error "Failed to spawn reader thread",
       { st with next := (st.next + 1) % u32Mod })
  | .success =>
      (.ok st.next,
       { st with next := (st.next + 1) % u32Mod,
                 sessions := if st.next ∈ st.sessions then st.sessions
                   else st.sessions ++ [st.next] })

/-- `PtyManager::write` (pty.rs:232-246): looks the handle up and writes
to the session writer; the registry itself is never mutated.  `ioOk`
is the oracle for the underlying `write_all`/`flush` calls. -/
def writeFn (st : MgrState) (h : Nat) (ioOk : Bool) : Except String Unit × MgrState :=
  if h ∈ st.sessions then
    if ioOk then (.ok (), st) else (.error "Write failed", st)
  else (.error "PTY session not found", st)

/-- `PtyManager::resize` (pty.rs:248-263): same registry behaviour as
`write`. -/
def resizeFn (st : MgrState) (h : Nat) (ioOk : Bool) : Except String Unit × MgrState :=
  if h ∈ st.sessions then
    if ioOk then (.ok (), st) else (.error "Resize failed", st)
  else (.error "PTY session not found", st)

/-- `PtyManager::close` (pty.rs:265-273): `sessions.remove(&id)`; when a
session was present its child is killed and waited on; the function
returns `Ok(())` unconditionally. -/
def closeFn (st : MgrState) (h : Nat) : Except String Unit × MgrState :=
  if h ∈ st.sessions then
    (.ok (), { st with sessions := st.sessions.erase h, killed := st.killed ++ [h] })
  else (.ok (), st)

/-- `PtyManager::shutdown` (pty.rs:276-282): drains the map, killing
every child. -/
def shutdownFn (st : MgrState) : MgrState :=
  { st with sessions := [], killed := st.killed ++ st.sessions }

/-- One operation against the manager, with its oracle outcomes. -/
inductive MgrOp where
  | create (o : CreateOutcome)
  | write (h : Nat) (ioOk : Bool)
  | resize (h : Nat) (ioOk : Bool)
  | close (h : Nat)
  | shutdown
deriving DecidableEq, Repr

/-- Apply one operation; also collect the handle returned by a
successful `create`. -/
def mgrStep (acc : MgrState × List Nat) (op : MgrOp) : MgrState × List Nat :=
  match op with
  | .create o =>
      let r := createFn acc.1 o
      (r.2, acc.2 ++ (match r.1 with | .ok h => [h] | .error _ => []))
  | .write h ioOk => ((writeFn acc.1 h ioOk).2, acc.2)
  | .resize h ioOk => ((resizeFn acc.1 h ioOk).2, acc.2)
  | .close h => ((closeFn acc.1 h).2, acc.2)
  | .shutdown => (shutdownFn acc.1, acc.2)

/-- Run a sequence of operations from the initial manager state,
returning the final state and the successful `create` handles in call
order. -/
def runMgr (ops : List MgrOp) : MgrState × List Nat :=
  ops.foldl mgrStep (initMgr, [])

/-- How many operations of the sequence consume an id from `next_id`
(a `create` that reaches the allocation at pty.rs:120, i.e. everything
but a pre-allocation failure). -/
def allocCount (ops : List MgrOp) : Nat :=
  ops.countP fun op =>
    match op with
    | MgrOp.create CreateOutcome.failBeforeAlloc => false
    | MgrOp.create _ => true
    | _ => false

/-- Invariant indexed by the number of ids consumed so far: the counter
equals `1 + A` modulo `2^32`, the returned handles are strictly
increasing, and every returned handle lies in `[1, 1 + A)`. -/
def MgrInvW (st : MgrState) (hs : List Nat) (A : Nat) : Prop :=
  st.next = (1 + A) % u32Mod ∧ List.Chain' (· < ·) hs ∧ ∀ h ∈ hs, 1 ≤ h ∧ h < 1 + A

end PtyMgr

namespace PtyFlush

/-- pty.rs:26 — `MAX_FLUSH_BYTES`, max bytes per emission. -/
def MAX_FLUSH_BYTES : Nat := 64 * 1024

/-- UTF-8 encoding of U+FFFD, the replacement character emitted by
Rust's `String::from_utf8_lossy` for each maximal invalid subpart. -/
def REPLACEMENT : List Nat := [0xEF, 0xBF, 0xBD]

/-- Is `b` a UTF-8 continuation byte (`0x80..=0xBF`)? -/
def isCont (b : Nat) : Bool := decide (0x80 ≤ b) && decide (b ≤ 0xBF)

/-- Lower bound for the first continuation byte after leading byte `b`
(UTF-8 shortest-form/surrogate restrictions: `E0` needs `A0..`, `F0`
needs `90..`). -/
def cont1Lo (b : Nat) : Nat := if b = 0xE0 then 0xA0 else if b = 0xF0 then 0x90 else 0x80

/-- Upper bound for the first continuation byte after leading byte `b`
(`ED` allows `..9F`, `F4` allows `..8F`). -/
def cont1Hi (b : Nat) : Nat := if b = 0xED then 0x9F else if b = 0xF4 then 0x8F else 0xBF

/-- Byte-level model of Rust's `String::from_utf8_lossy` (pty.rs:193,
209): decodes valid UTF-8 sequences unchanged and replaces each maximal
invalid subpart with U+FFFD; the result is the UTF-8 bytes of the
produced string. -/
def utf8Lossy : List Nat → List Nat
  | [] => []
  | b :: rest =>
    if b < 0x80 then b :: utf8Lossy rest
    else if 0xC2 ≤ b ∧ b ≤ 0xDF then
      match rest with
      | [] => REPLACEMENT
      | c1 :: r1 =>
        if isCont c1 then b :: c1 :: utf8Lossy r1
        else REPLACEMENT ++ utf8Lossy (c1 :: r1)
    else if 0xE0 ≤ b ∧ b ≤ 0xEF then
      match rest with
      | [] => REPLACEMENT
      | c1 :: r1 =>
        if cont1Lo b ≤ c1 ∧ c1 ≤ cont1Hi b then
          match r1 with
          | [] => REPLACEMENT
          | c2 :: r2 =>
            if isCont c2 then b :: c1 :: c2 :: utf8Lossy r2
            else REPLACEMENT ++ utf8Lossy (c2 :: r2)
        else REPLACEMENT ++ utf8Lossy (c1 :: r1)
    else if 0xF0 ≤ b ∧ b ≤ 0xF4 then
      match rest with
      | [] => REPLACEMENT
      | c1 :: r1 =>
        if cont1Lo b ≤ c1 ∧ c1 ≤ cont1Hi b then
          match r1 with
          | [] => REPLACEMENT
          | c2 :: r2 =>
            if isCont c2 then
              match r2 with
              | [] => REPLACEMENT
              | c3 :: r3 =>
                if isCont c3 then b :: c1 :: c2 :: c3 :: utf8Lossy r3
                else REPLACEMENT ++ utf8Lossy (c3 :: r3)
            else REPLACEMENT ++ utf8Lossy (c2 :: r2)
        else REPLACEMENT ++ utf8Lossy (c1 :: r1)
    else REPLACEMENT ++ utf8Lossy rest
termination_by l => l.length
decreasing_by all_goals simp <;> omega

/-- `data.chunks(MAX_FLUSH_BYTES)` of pty.rs:192: split a byte vector
into consecutive chunks of at most `MAX_FLUSH_BYTES` bytes (an empty
vector yields no chunks). -/
def chunksMax : List Nat → List (List Nat)
  | [] => []
  | l@(_ :: _) => l.take MAX_FLUSH_BYTES :: chunksMax (l.drop MAX_FLUSH_BYTES)
termination_by l => l.length
decreasing_by simp_all [MAX_FLUSH_BYTES]; omega

/-- An event emitted by the flusher thread: `pty:data` with a payload
(the UTF-8 bytes of the emitted string) or `pty:exit`. -/
inductive Ev where
  | data (payload : List Nat)
  | exit
deriving DecidableEq, Repr

/-- Control location of the flusher thread (pty.rs:177-218): in the
periodic loop; between taking the buffer and the post-emission `done`
load (holding the taken bytes); past the loop, about to run the final
flush; terminated. -/
inductive FlPC where
  | loop
  | emitting (pending : List Nat)
  | final
  | exited
deriving DecidableEq, Repr

/-- Joint state of one session's reader/flusher pair: the shared
buffer, the shared `reader_done` flag, the flusher's control location,
the emitted events, and a ghost record of every byte the reader took
from the PTY (in order). -/
structure FlState where
  buffer : List Nat
  done : Bool
  pc : FlPC
  events : List Ev
  produced : List Nat
deriving DecidableEq, Repr

/-- State when `create` starts the two threads: empty buffer, flag
clear, flusher at the top of its loop. -/
def initState : FlState :=
  { buffer := [], done := false, pc := .loop, events := [], produced := [] }

/-- Atomic steps, one per lock-protected (or single-flag-access)
section of the two threads. -/
inductive FlLabel where
  | append (chunk : List Nat)
  | setDone
  | tick
  | emitCheck
  | finalFlush
deriving DecidableEq, Repr

/-- One atomic step; `none` when the label is not enabled.

* `append c` — reader thread, pty.rs:157-159: `Ok(n)` with `n > 0`
  appends the bytes under the buffer lock.  Only possible while the
  reader has not finished (`done = false`).
* `setDone` — reader thread, pty.rs:153-155/160-163: EOF or read error
  stores `true` into `reader_done` and the reader exits.
* `tick` — flusher loop body's locked section, pty.rs:180-189: if the
  buffer is empty, break out of the loop when `done` is set, otherwise
  keep looping; if non-empty, `mem::take` the contents.
* `emitCheck` — pty.rs:192-202: emit the taken bytes in chunks of at
  most `MAX_FLUSH_BYTES`, each converted by `from_utf8_lossy`, then
  load `done`: `true` breaks out of the loop, `false` continues.
* `finalFlush` — pty.rs:206-218: emit the remaining buffer contents as
  ONE unchunked event if non-empty, then emit `pty:exit` and stop. -/
def step (s : FlState) : FlLabel → Option FlState
  | .append c =>
      if s.done then none
      else some { s with buffer := s.buffer ++ c, produced := s.produced ++ c }
  | .setDone => if s.done then none else some { s with done := true }
  | .tick =>
      if s.pc = FlPC.loop then
        if s.buffer = [] then
          if s.done then some { s with pc := .final } else some s
        else some { s with pc := .emitting s.buffer, buffer := [] }
      else none
  | .emitCheck =>
      match s.pc with
      | .emitting d =>
          some { s with
            events := s.events ++ (chunksMax d).map (fun c => Ev.data (utf8Lossy c)),
            pc := if s.done then .final else .loop }
      | _ => none
  | .finalFlush =>
      if s.pc = FlPC.final then
        some { s with
          events := s.events ++
            (if s.buffer = [] then [] else [Ev.data (utf8Lossy s.buffer)]) ++ [Ev.exit],
          pc := .exited }
      else none

/-- States reachable from session start by enabled steps, under any
interleaving of the two threads. -/
inductive Reach : FlState → Prop
  | init : Reach initState
  | next {s t : FlState} {l : FlLabel} : Reach s → step s l = some t → Reach t

/-- Apply a label if enabled, else stay (used to run concrete traces). -/
def applyLabel (s : FlState) (l : FlLabel) : FlState := (step s l).getD s

/-- Run a concrete schedule from a given state. -/
def execFrom (s : FlState) (ls : List FlLabel) : FlState := ls.foldl applyLabel s

/-- Run a concrete schedule from the initial state. -/
def exec (ls : List FlLabel) : FlState := execFrom initState ls

/-- Concatenation of all `pty:data` payloads, in emission order. -/
def dataConcat (evs : List Ev) : List Nat :=
  (evs.map fun e => match e with | .data p => p | .exit => []).flatten

/-- Number of `pty:exit` events. -/
def exitCount (evs : List Ev) : Nat :=
  evs.countP fun e => match e with | .exit => true | _ => false

/-- Bytes taken by the reader but not yet published: the flusher's
taken-but-unemitted bytes followed by the buffer contents (nothing once
the flusher has terminated, since the final flush emitted the buffer). -/
def pendingOf (s : FlState) : List Nat :=
  match s.pc with
  | .emitting d => d ++ s.buffer
  | .exited => []
  | _ => s.buffer

/-- All bytes below 0x80 (plain ASCII, decoded identically by
`from_utf8_lossy`). -/
def allAscii (l : List Nat) : Bool := l.all fun b => decide (b < 0x80)

/-- The inductive invariant of the reader/flusher pair: the flusher
leaves its loop only after observing the finished flag; exactly one
exit event exists precisely once the flusher has terminated, and it is
the last event; and (for ASCII output, on which `from_utf8_lossy` is
the identity) published bytes plus unpublished bytes account exactly,
in order, for everything the reader took from the PTY. -/
def GoodFl (s : FlState) : Prop :=
  (s.pc = FlPC.final → s.done = true) ∧
  (s.pc = FlPC.exited → s.done = true) ∧
  (exitCount s.events = if s.pc = FlPC.exited then 1 else 0) ∧
  (s.pc = FlPC.exited → s.events.getLast? = some Ev.exit) ∧
  (allAscii s.produced = true → dataConcat s.events ++ pendingOf s = s.produced)

end PtyFlush

namespace Sidecar

/-- A child-process handle held in a `SidecarProcess` record; `alive`
is the OS-side liveness that `try_wait` observes (`alive = false` means
`try_wait` returns `Ok(Some(_))`). -/
structure ChildH where
  pid : Nat
  alive : Bool
deriving DecidableEq, Repr

/-- sidecar.rs:19-24 — `SidecarProcess`: optional child handle,
optional start timestamp, restart counter, status string. -/
structure SidecarProcess where
  child : Option ChildH
  start_time : Option Nat
  restart_count : Nat
  status : String
deriving DecidableEq, Repr

/-- sidecar.rs:35-46 — the record a fresh `SidecarManager` holds for
each name. -/
def initProc : SidecarProcess :=
  { child := none, start_time := none, restart_count := 0, status := "stopped" }

/-- sidecar.rs:11-17 — the `sidecar:status` payload. -/
structure SEvent where
  process : String
  status : String
  pid : Option Nat
  uptime_secs : Option Nat
deriving DecidableEq, Repr

/-- Oracle outcomes of the environment-dependent parts of
`start_engine`/`start_chain`: entry-point resolution
(`find_engine_path`/`find_chain_path`), interpreter resolution
(`node::find_node`), the `spawn` call, the new child's pid and the
current time. -/
structure StartEnv where
  pathOk : Bool
  nodeOk : Bool
  spawnOk : Bool
  newPid : Nat
  now : Nat
deriving DecidableEq, Repr

/-- `child.kill(); child.wait()` on an existing handle: the process is
dead, the handle itself stays in place. -/
def killChild : Option ChildH → Option ChildH
  | none => none
  | some c => some { c with alive := false }

/-- sidecar.rs:103-191 (`start_engine`; `start_chain` at 197-282 is
identical up to the name): resolve the entry point and the interpreter
before touching the record; then kill any existing child (handle kept),
set status `"starting"` and emit it; on spawn failure return the error
with the record left in that state; on success install the new child,
record the start time, set status `"running"`, reset the restart
counter and emit `running` with the pid. -/
def startFn (name : String) (p : SidecarProcess) (env : StartEnv) :
    Except String Unit × SidecarProcess × List SEvent :=
  if env.pathOk = false then (.error "entry point not found", p, [])
  else if env.nodeOk = false then (.error "Node.js not found", p, [])
  else
    let p1 : SidecarProcess := { p with child := killChild p.child, status := "starting" }
    let evs : List SEvent := [⟨name, "starting", none, none⟩]
    if env.spawnOk = false then (.error "Failed to start", p1, evs)
    else
      (.ok (),
       { child := some ⟨env.newPid, true⟩, start_time := some env.now,
         restart_count := 0, status := "running" },
       evs ++ [⟨name, "running", some env.newPid, some 0⟩])

/-- sidecar.rs:288-339 (`stop_process`): if a child is present, SIGTERM
it and poll `try_wait` for up to the 5-second grace period, force-kill
on expiry (`graceful` records which of the two happened — the record
and the result do not depend on it); then clear the child and start
time, set status `"stopped"`, emit `stopped`, and return `Ok(())`. -/
def stopFn (name : String) (p : SidecarProcess) (graceful : Bool) :
    Except String Unit × SidecarProcess × List SEvent :=
  let _mode : String :=
    match p.child with
    | none => "no child"
    | some _ => if graceful then "graceful exit" else "force killed"
  (.ok (),
   { p with child := none, start_time := none, status := "stopped" },
   [⟨name, "stopped", none, none⟩])

/-- sidecar.rs:341-361 (`get_status`/`get_chain_status`): pure read; no
mutation, uptime computed from the recorded start time. -/
def getStatusFn (name : String) (p : SidecarProcess) (now : Nat) : SEvent :=
  ⟨name, p.status, p.child.map (fun c => c.pid), p.start_time.map (fun t => now - t)⟩

/-- sidecar.rs:363-377 (`is_running`): no child means `false`; with a
child, `try_wait` returning `Err` (oracle `tryWaitErr`) means `false`
with no mutation; an exited child sets status `"stopped"` (the dead
handle is NOT removed) and returns `false`; a live child returns
`true`. -/
def isRunningFn (p : SidecarProcess) (tryWaitErr : Bool) : Bool × SidecarProcess :=
  match p.child with
  | none => (false, p)
  | some c =>
      if tryWaitErr then (false, p)
      else if c.alive then (true, p)
      else (false, { p with status := "stopped" })

/-- sidecar.rs:380-395 (`shutdown`): SIGTERM, sleep, kill, wait; then
clear the child and set status `"stopped"` — the start time is NOT
cleared and no event is emitted. -/
def shutdownFn (p : SidecarProcess) : SidecarProcess :=
  { p with child := none, status := "stopped" }

/-- One step against a single named record: the five supervisor
operations plus the environment event of the child exiting on its own
(what a later `try_wait` observes). -/
inductive SOp where
  | start (env : StartEnv)
  | stop (graceful : Bool)
  | queryStatus (now : Nat)
  | isAlive (tryWaitErr : Bool)
  | shutdownAll
  | childExit
deriving DecidableEq, Repr

/-- State transition of one record under one step. -/
def sstep (p : SidecarProcess) (op : SOp) : SidecarProcess :=
  match op with
  | .start env => (startFn "soul-engine" p env).2.1
  | .stop g => (stopFn "soul-engine" p g).2.1
  | .queryStatus _ => p
  | .isAlive e => (isRunningFn p e).2
  | .shutdownAll => shutdownFn p
  | .childExit => { p with child := killChild p.child }

/-- The record after a sequence of steps from the fresh state. -/
def reachProc (ops : List SOp) : SidecarProcess := ops.foldl sstep initProc

/-- Is a live child handle present in the record? -/
def childLive (p : SidecarProcess) : Bool :=
  match p.child with
  | some c => c.alive
  | none => false

/-- The invariant that actually holds of every reachable record: a live
child forces status `"running"`, and status `"running"` forces a child
handle to be present (the handle may refer to an already-exited
process, since exits are observed lazily). -/
def goodProc (p : SidecarProcess) : Prop :=
  (childLive p = true → p.status = "running") ∧
  (p.status = "running" → p.child.isSome = true)

end Sidecar

namespace Sidecar

theorem childLive_killChild (p : SidecarProcess) :
    childLive { p with child := killChild p.child } = false := by
  cases h : p.child <;> simp [childLive, killChild, h]

theorem goodProc_sstep (p : SidecarProcess) (op : SOp) (hp : goodProc p) :
    goodProc (sstep p op) := by
  obtain ⟨h1, h2⟩ := hp
  cases op with
  | start env =>
    obtain ⟨pathOk, nodeOk, spawnOk, newPid, tnow⟩ := env
    cases pathOk with
    | false => exact ⟨h1, h2⟩
    | true =>
      cases nodeOk with
      | false => exact ⟨h1, h2⟩
      | true =>
        cases spawnOk with
        | true => exact ⟨fun _ => rfl, fun _ => rfl⟩
        | false =>
          refine ⟨fun hlive => ?_, fun hst => ?_⟩
          · have hx : childLive (sstep p (SOp.start ⟨true, true, false, newPid, tnow⟩))
                = false := by
              show childLive { p with child := killChild p.child, status := "starting" }
                = false
              cases hc : p.child <;> simp [childLive, killChild]
            rw [hx] at hlive
            exact absurd hlive (by simp)
          · have hx : (sstep p (SOp.start ⟨true, true, false, newPid, tnow⟩)).status
                = "starting" := rfl
            rw [hx] at hst
            exact absurd hst (by decide)
  | stop g =>
    refine ⟨fun hlive => ?_, fun hst => ?_⟩
    · have hx : childLive (sstep p (SOp.stop g)) = false := by
        show childLive { p with child := none, start_time := none, status := "stopped" }
          = false
        simp [childLive]
      rw [hx] at hlive
      exact absurd hlive (by simp)
    · have hx : (sstep p (SOp.stop g)).status = "stopped" := rfl
      rw [hx] at hst
      exact absurd hst (by decide)
  | queryStatus tnow => exact ⟨h1, h2⟩
  | isAlive e =>
    show goodProc (isRunningFn p e).2
    cases hc : p.child with
    | none => simp only [isRunningFn, hc]; exact ⟨h1, h2⟩
    | some c =>
      cases e with
      | true => simp only [isRunningFn, hc, if_true]; exact ⟨h1, h2⟩
      | false =>
        cases ha : c.alive with
        | true =>
          simp only [isRunningFn, hc, ha, Bool.false_eq_true, if_false, if_true]
          exact ⟨h1, h2⟩
        | false =>
          simp only [isRunningFn, hc, ha, Bool.false_eq_true, if_false]
          refine ⟨fun hlive => ?_, fun hst => ?_⟩
          · simp only [childLive, hc] at hlive
            rw [ha] at hlive
            exact absurd hlive (by simp)
          · simp at hst
  | shutdownAll =>
    refine ⟨fun hlive => ?_, fun hst => ?_⟩
    · have hx : childLive (sstep p SOp.shutdownAll) = false := by
        show childLive { p with child := none, status := "stopped" } = false
        simp [childLive]
      rw [hx] at hlive
      exact absurd hlive (by simp)
    · have hx : (sstep p SOp.shutdownAll).status = "stopped" := rfl
      rw [hx] at hst
      exact absurd hst (by decide)
  | childExit =>
    refine ⟨fun hlive => ?_, fun hst => ?_⟩
    · have hx : childLive (sstep p SOp.childExit) = false := by
        show childLive { p with child := killChild p.child } = false
        cases hc : p.child <;> simp [childLive, killChild]
      rw [hx] at hlive
      exact absurd hlive (by simp)
    · have hst' : p.status = "running" := hst
      have hsome := h2 hst'
      have hx : (sstep p SOp.childExit).child = killChild p.child := rfl
      show ((sstep p SOp.childExit).child).isSome = true
      rw [hx]
      cases hc : p.child with
      | none => rw [hc] at hsome; exact absurd hsome (by simp)
      | some c => simp [killChild]

theorem goodProc_foldl (ops : List SOp) (p : SidecarProcess) (hp : goodProc p) :
    goodProc (ops.foldl sstep p) := by
  induction ops generalizing p with
  | nil => exact hp
  | cons op rest ih => exact ih (sstep p op) (goodProc_sstep p op hp)

/-- C3 counterexample: start the engine successfully, then let the
child exit on its own (which is exactly the situation
`is_running`'s `try_wait` check exists for).  The reachable record has
`status = "running"` and no live child handle, so the claimed
iff is false. -/
theorem sidecar_running_iff_live_cex :
    ¬ ((reachProc [SOp.start ⟨true, true, true, 7, 0⟩, SOp.childExit]).status = "running"
        ↔ childLive (reachProc [SOp.start ⟨true, true, true, 7, 0⟩, SOp.childExit]) = true) := by
  decide

/-- C3 (amended): for every record reachable by start, stop, status,
isAlive and shutdownAll operations (with the child possibly exiting on
its own in between), a live child handle forces `status = "running"`,
and `status = "running"` forces a child handle to be present; the full
iff fails because a child exit is observed lazily, and because
`is_running` keeps the dead handle when it reaps. -/
theorem sidecar_running_invariant (ops : List SOp) :
    (childLive (reachProc ops) = true → (reachProc ops).status = "running") ∧
    ((reachProc ops).status = "running" → (reachProc ops).child.isSome = true) :=
  goodProc_foldl ops initProc ⟨fun h => by simp [childLive, initProc] at h, fun h => by simp [initProc] at h⟩

/-- C3 witness: after one successful start, a live child is present
and the invariant yields `status = "running"`. -/
theorem sidecar_running_invariant_witness :
    (reachProc [SOp.start ⟨true, true, true, 7, 0⟩]).status = "running" :=
  (sidecar_running_invariant [SOp.start ⟨true, true, true, 7, 0⟩]).1 (by decide)

/-- C4 counterexample: from the fresh record (status `"stopped"`), a
start whose resolution succeeds but whose spawn fails returns an error
AND leaves the record's status as `"starting"` — a transient state
persisted past the failed call. -/
theorem sidecar_spawnfail_cex :
    initProc.status = "stopped" ∧
    (startFn "soul-engine" initProc ⟨true, true, false, 0, 0⟩).1
      = Except.error "Failed to start" ∧
    (startFn "soul-engine" initProc ⟨true, true, false, 0, 0⟩).2.1.status = "starting" := by
  exact ⟨rfl, rfl, rfl⟩

/-- C4 (amended): when start fails to spawn, the error is reported to
the caller and no `error` status is persisted or published; but the
record is left with status `"starting"` (its previously running child,
if any, killed with the dead handle retained; start time and restart
counter unchanged), and only the `status=starting` event has been
published. -/
theorem sidecar_spawnfail_state (name : String) (p : SidecarProcess) (env : StartEnv)
    (hp : env.pathOk = true) (hn : env.nodeOk = true) (hs : env.spawnOk = false) :
    (startFn name p env).1 = Except.error "Failed to start" ∧
    (startFn name p env).2.1
      = { p with child := killChild p.child, status := "starting" } ∧
    (startFn name p env).2.2 = [⟨name, "starting", none, none⟩] ∧
    ∀ e ∈ (startFn name p env).2.2, e.status ≠ "error" := by
  obtain ⟨pathOk, nodeOk, spawnOk, newPid, tnow⟩ := env
  cases hp; cases hn; cases hs
  refine ⟨rfl, rfl, rfl, ?_⟩
  intro e he
  have hev : (startFn name p ⟨true, true, false, newPid, tnow⟩).2.2
      = [⟨name, "starting", none, none⟩] := rfl
  rw [hev, List.mem_singleton] at he
  subst he
  show ("starting" : String) ≠ "error"
  decide

/-- C4 witness: the amended statement at a concrete failed spawn. -/
theorem sidecar_spawnfail_state_witness :
    (startFn "soul-engine" initProc ⟨true, true, false, 3, 5⟩).2.2
      = [⟨"soul-engine", "starting", none, none⟩] :=
  (sidecar_spawnfail_state "soul-engine" initProc ⟨true, true, false, 3, 5⟩
    rfl rfl rfl).2.2.1

/-- C5 (confirmed): `stop_process` — for every record, whether the
child exits gracefully, is force-killed, or was not running at all —
returns `Ok`, clears the child handle and the start time, sets status
`"stopped"`, and publishes exactly the `status=stopped` event. -/
theorem sidecar_stop_total (name : String) (p : SidecarProcess) (graceful : Bool) :
    (stopFn name p graceful).1 = Except.ok () ∧
    (stopFn name p graceful).2.1.child = none ∧
    (stopFn name p graceful).2.1.start_time = none ∧
    (stopFn name p graceful).2.1.status = "stopped" ∧
    (stopFn name p graceful).2.2 = [⟨name, "stopped", none, none⟩] :=
  ⟨rfl, rfl, rfl, rfl, rfl⟩

/-- C10 (confirmed): stopping with no running child still returns
success, clears the record and publishes `status=stopped`; and a second
stop yields exactly the same record state and the same event as the
first, so stop is idempotent on the record. -/
theorem sidecar_stop_idempotent (name : String) (p : SidecarProcess) (g g2 : Bool) :
    (p.child = none →
      (stopFn name p g).1 = Except.ok () ∧
      (stopFn name p g).2.1
        = { p with child := none, start_time := none, status := "stopped" } ∧
      (stopFn name p g).2.2 = [⟨name, "stopped", none, none⟩]) ∧
    (stopFn name (stopFn name p g).2.1 g2).2.1 = (stopFn name p g).2.1 ∧
    (stopFn name (stopFn name p g).2.1 g2).2.2 = (stopFn name p g).2.2 :=
  ⟨fun _ => ⟨rfl, rfl, rfl⟩, rfl, rfl⟩

/-- C10 witness: stopping the fresh (not-running) record. -/
theorem sidecar_stop_idempotent_witness :
    (stopFn "soul-chain" initProc true).2.1
      = { initProc with child := none, start_time := none, status := "stopped" } :=
  ((sidecar_stop_idempotent "soul-chain" initProc true false).1 rfl).2.1

/-- C9 (confirmed): when entry-point or interpreter resolution fails,
start returns an error and the record is completely unchanged — child
handle, start time, restart counter and status all keep their prior
values — and no status event is published. -/
theorem sidecar_resolution_failure_pure (name : String) (p : SidecarProcess)
    (env : StartEnv) (h : env.pathOk = false ∨ env.nodeOk = false) :
    (∃ m, (startFn name p env).1 = Except.error m) ∧
    (startFn name p env).2.1 = p ∧
    (startFn name p env).2.2 = [] := by
  obtain ⟨pathOk, nodeOk, spawnOk, newPid, tnow⟩ := env
  rcases h with h | h
  · cases h
    exact ⟨⟨"entry point not found", rfl⟩, rfl, rfl⟩
  · cases h
    cases pathOk with
    | false => exact ⟨⟨"entry point not found", rfl⟩, rfl, rfl⟩
    | true => exact ⟨⟨"Node.js not found", rfl⟩, rfl, rfl⟩

/-- C9 witness: a concrete resolution failure leaves the fresh record
untouched. -/
theorem sidecar_resolution_failure_pure_witness :
    (startFn "soul-engine" initProc ⟨false, true, true, 0, 0⟩).2.1 = initProc :=
  (sidecar_resolution_failure_pure "soul-engine" initProc ⟨false, true, true, 0, 0⟩
    (Or.inl rfl)).2.1

end Sidecar

namespace PtyMgr

theorem writeFn_state (st : MgrState) (h : Nat) (ioOk : Bool) :
    (writeFn st h ioOk).2 = st := by
  unfold writeFn
  split <;> (try split) <;> rfl

theorem resizeFn_state (st : MgrState) (h : Nat) (ioOk : Bool) :
    (resizeFn st h ioOk).2 = st := by
  unfold resizeFn
  split <;> (try split) <;> rfl

theorem closeFn_next (st : MgrState) (h : Nat) : (closeFn st h).2.next = st.next := by
  unfold closeFn
  split <;> rfl

theorem closeFn_ok (st : MgrState) (h : Nat) : (closeFn st h).1 = Except.ok () := by
  unfold closeFn
  split <;> rfl

theorem u32Mod_eq : u32Mod = 4294967296 := by norm_num [u32Mod]

theorem mgrInvW_foldl (ops : List MgrOp) :
    ∀ (st : MgrState) (hs : List Nat) (A : Nat),
      MgrInvW st hs A → A + allocCount ops + 1 ≤ u32Mod →
      MgrInvW ((ops.foldl mgrStep (st, hs)).1) ((ops.foldl mgrStep (st, hs)).2)
        (A + allocCount ops) := by
  induction ops with
  | nil =>
    intro st hs A hinv _
    simpa [allocCount] using hinv
  | cons op rest ih =>
    intro st hs A hinv hbound
    obtain ⟨h1, h2, h3⟩ := hinv
    have hm := u32Mod_eq
    rw [List.foldl_cons]
    cases op with
    | create o =>
      cases o with
      | failBeforeAlloc =>
        have hcnt : allocCount (MgrOp.create CreateOutcome.failBeforeAlloc :: rest)
            = allocCount rest := by
          simp [allocCount]
        have hstep : mgrStep (st, hs) (MgrOp.create CreateOutcome.failBeforeAlloc)
            = (st, hs) := by
          show (st, hs ++ []) = (st, hs)
          rw [List.append_nil]
        rw [hcnt] at hbound ⊢
        rw [hstep]
        exact ih st hs A ⟨h1, h2, h3⟩ hbound
      | failAfterAlloc =>
        have hcnt : allocCount (MgrOp.create CreateOutcome.failAfterAlloc :: rest)
            = allocCount rest + 1 := by
          simp [allocCount]
        rw [hcnt] at hbound
        have hlt : 1 + A < u32Mod := by omega
        have hnext : st.next = 1 + A := by rw [h1, Nat.mod_eq_of_lt hlt]
        have hstep : mgrStep (st, hs) (MgrOp.create CreateOutcome.failAfterAlloc)
            = ({ st with next := (st.next + 1) % u32Mod }, hs) := by
          show ({ st with next := (st.next + 1) % u32Mod }, hs ++ []) = _
          rw [List.append_nil]
        rw [hstep]
        have hinv' : MgrInvW { st with next := (st.next + 1) % u32Mod } hs (A + 1) := by
          refine ⟨?_, h2, fun h hmem => ?_⟩
          · show (st.next + 1) % u32Mod = (1 + (A + 1)) % u32Mod
            rw [hnext]
            have harith : 1 + A + 1 = 1 + (A + 1) := by omega
            rw [harith]
          · obtain ⟨hh1, hh2⟩ := h3 h hmem
            exact ⟨hh1, by omega⟩
        have hb2 : (A + 1) + allocCount rest + 1 ≤ u32Mod := by omega
        have hfin := ih _ hs (A + 1) hinv' hb2
        have hidx : A + (allocCount rest + 1) = (A + 1) + allocCount rest := by omega
        rw [hcnt, hidx]
        exact hfin
      | success =>
        have hcnt : allocCount (MgrOp.create CreateOutcome.success :: rest)
            = allocCount rest + 1 := by
          simp [allocCount]
        rw [hcnt] at hbound
        have hlt : 1 + A < u32Mod := by omega
        have hnext : st.next = 1 + A := by rw [h1, Nat.mod_eq_of_lt hlt]
        have hstep : mgrStep (st, hs) (MgrOp.create CreateOutcome.success)
            = ({ st with next := (st.next + 1) % u32Mod,
                         sessions := if st.next ∈ st.sessions then st.sessions
                           else st.sessions ++ [st.next] }, hs ++ [st.next]) := rfl
        rw [hstep]
        have hinv' : MgrInvW
            { st with next := (st.next + 1) % u32Mod,
                      sessions := if st.next ∈ st.sessions then st.sessions
                        else st.sessions ++ [st.next] }
            (hs ++ [st.next]) (A + 1) := by
          refine ⟨?_, ?_, fun h hmem => ?_⟩
          · show (st.next + 1) % u32Mod = (1 + (A + 1)) % u32Mod
            rw [hnext]
            have harith : 1 + A + 1 = 1 + (A + 1) := by omega
            rw [harith]
          · refine List.Chain'.append h2 (List.chain'_singleton _) ?_
            intro x hx y hy
            rw [List.head?_cons, Option.mem_some_iff] at hy
            subst hy
            obtain ⟨hne, hxl⟩ := List.mem_getLast?_eq_getLast hx
            have := (h3 x (hxl ▸ List.getLast_mem hne)).2
            rw [hnext]
            omega
          · rw [List.mem_append, List.mem_singleton] at hmem
            rcases hmem with hmem | hmem
            · obtain ⟨hh1, hh2⟩ := h3 h hmem
              exact ⟨hh1, by omega⟩
            · subst hmem
              rw [hnext]
              exact ⟨by omega, by omega⟩
        have hb2 : (A + 1) + allocCount rest + 1 ≤ u32Mod := by omega
        have hfin := ih _ (hs ++ [st.next]) (A + 1) hinv' hb2
        have hidx : A + (allocCount rest + 1) = (A + 1) + allocCount rest := by omega
        rw [hcnt, hidx]
        exact hfin
    | write h ioOk =>
      have hcnt : allocCount (MgrOp.write h ioOk :: rest) = allocCount rest := by
        simp [allocCount]
      have hstep : mgrStep (st, hs) (MgrOp.write h ioOk) = (st, hs) := by
        show ((writeFn st h ioOk).2, hs) = (st, hs)
        rw [writeFn_state]
      rw [hcnt] at hbound ⊢
      rw [hstep]
      exact ih st hs A ⟨h1, h2, h3⟩ hbound
    | resize h ioOk =>
      have hcnt : allocCount (MgrOp.resize h ioOk :: rest) = allocCount rest := by
        simp [allocCount]
      have hstep : mgrStep (st, hs) (MgrOp.resize h ioOk) = (st, hs) := by
        show ((resizeFn st h ioOk).2, hs) = (st, hs)
        rw [resizeFn_state]
      rw [hcnt] at hbound ⊢
      rw [hstep]
      exact ih st hs A ⟨h1, h2, h3⟩ hbound
    | close h =>
      have hcnt : allocCount (MgrOp.close h :: rest) = allocCount rest := by
        simp [allocCount]
      have hinv' : MgrInvW (closeFn st h).2 hs A := by
        refine ⟨?_, h2, h3⟩
        rw [closeFn_next]
        exact h1
      rw [hcnt] at hbound ⊢
      exact ih _ hs A hinv' hbound
    | shutdown =>
      have hcnt : allocCount (MgrOp.shutdown :: rest) = allocCount rest := by
        simp [allocCount]
      have hinv' : MgrInvW (shutdownFn st) hs A := ⟨h1, h2, h3⟩
      rw [hcnt] at hbound ⊢
      exact ih _ hs A hinv' hbound

theorem mgrInvWR_foldl (ops : List MgrOp) :
    ∀ (st : MgrState) (hs : List Nat) (A : Nat),
      st.next = (1 + A) % u32Mod → hs = List.range' 1 A →
      A + allocCount ops + 1 ≤ u32Mod →
      (∀ op ∈ ops, op ≠ MgrOp.create CreateOutcome.failAfterAlloc) →
      (ops.foldl mgrStep (st, hs)).2 = List.range' 1 (A + allocCount ops) := by
  induction ops with
  | nil =>
    intro st hs A _ h2 _ _
    simpa [allocCount] using h2
  | cons op rest ih =>
    intro st hs A h1 h2 hbound hops
    have hm := u32Mod_eq
    have hrest : ∀ op ∈ rest, op ≠ MgrOp.create CreateOutcome.failAfterAlloc :=
      fun o ho => hops o (List.mem_cons_of_mem op ho)
    rw [List.foldl_cons]
    cases op with
    | create o =>
      cases o with
      | failBeforeAlloc =>
        have hcnt : allocCount (MgrOp.create CreateOutcome.failBeforeAlloc :: rest)
            = allocCount rest := by
          simp [allocCount]
        have hstep : mgrStep (st, hs) (MgrOp.create CreateOutcome.failBeforeAlloc)
            = (st, hs) := by
          show (st, hs ++ []) = (st, hs)
          rw [List.append_nil]
        rw [hcnt] at hbound ⊢
        rw [hstep]
        exact ih st hs A h1 h2 hbound hrest
      | failAfterAlloc =>
        exact absurd rfl (hops _ (List.mem_cons_self _ _))
      | success =>
        have hcnt : allocCount (MgrOp.create CreateOutcome.success :: rest)
            = allocCount rest + 1 := by
          simp [allocCount]
        rw [hcnt] at hbound
        have hlt : 1 + A < u32Mod := by omega
        have hnext : st.next = 1 + A := by rw [h1, Nat.mod_eq_of_lt hlt]
        have hstep : mgrStep (st, hs) (MgrOp.create CreateOutcome.success)
            = ({ st with next := (st.next + 1) % u32Mod,
                         sessions := if st.next ∈ st.sessions then st.sessions
                           else st.sessions ++ [st.next] }, hs ++ [st.next]) := rfl
        rw [hstep]
        have hhs : hs ++ [st.next] = List.range' 1 (A + 1) := by
          rw [h2, hnext, List.range'_1_concat]
        have hn2 : ({ st with next := (st.next + 1) % u32Mod,
                              sessions := if st.next ∈ st.sessions then st.sessions
                                else st.sessions ++ [st.next] } : MgrState).next
            = (1 + (A + 1)) % u32Mod := by
          show (st.next + 1) % u32Mod = (1 + (A + 1)) % u32Mod
          rw [hnext]
          have harith : 1 + A + 1 = 1 + (A + 1) := by omega
          rw [harith]
        have hb2 : (A + 1) + allocCount rest + 1 ≤ u32Mod := by omega
        have hfin := ih _ (hs ++ [st.next]) (A + 1) hn2 hhs hb2 hrest
        have hidx : A + (allocCount rest + 1) = (A + 1) + allocCount rest := by omega
        rw [hcnt, hidx]
        exact hfin
    | write h ioOk =>
      have hcnt : allocCount (MgrOp.write h ioOk :: rest) = allocCount rest := by
        simp [allocCount]
      have hstep : mgrStep (st, hs) (MgrOp.write h ioOk) = (st, hs) := by
        show ((writeFn st h ioOk).2, hs) = (st, hs)
        rw [writeFn_state]
      rw [hcnt] at hbound ⊢
      rw [hstep]
      exact ih st hs A h1 h2 hbound hrest
    | resize h ioOk =>
      have hcnt : allocCount (MgrOp.resize h ioOk :: rest) = allocCount rest := by
        simp [allocCount]
      have hstep : mgrStep (st, hs) (MgrOp.resize h ioOk) = (st, hs) := by
        show ((resizeFn st h ioOk).2, hs) = (st, hs)
        rw [resizeFn_state]
      rw [hcnt] at hbound ⊢
      rw [hstep]
      exact ih st hs A h1 h2 hbound hrest
    | close h =>
      have hcnt : allocCount (MgrOp.close h :: rest) = allocCount rest := by
        simp [allocCount]
      have hn2 : ((closeFn st h).2).next = (1 + A) % u32Mod := by
        rw [closeFn_next]
        exact h1
      rw [hcnt] at hbound ⊢
      exact ih _ hs A hn2 h2 hbound hrest
    | shutdown =>
      have hcnt : allocCount (MgrOp.shutdown :: rest) = allocCount rest := by
        simp [allocCount]
      rw [hcnt] at hbound ⊢
      exact ih _ hs A h1 h2 hbound hrest

theorem runMgr_success_replicate (n : Nat) :
    ∀ (st : MgrState) (hs : List Nat), st.next < u32Mod →
      ((List.replicate n (MgrOp.create CreateOutcome.success)).foldl mgrStep (st, hs)).2
        = hs ++ (List.range n).map (fun i => (st.next + i) % u32Mod) := by
  induction n with
  | zero =>
    intro st hs _
    simp
  | succ n ih =>
    intro st hs hlt
    rw [List.replicate_succ, List.foldl_cons]
    have hstep : mgrStep (st, hs) (MgrOp.create CreateOutcome.success)
        = ({ st with next := (st.next + 1) % u32Mod,
                     sessions := if st.next ∈ st.sessions then st.sessions
                       else st.sessions ++ [st.next] }, hs ++ [st.next]) := rfl
    rw [hstep]
    have hlt2 : (st.next + 1) % u32Mod < u32Mod :=
      Nat.mod_lt _ (by rw [u32Mod_eq]; omega)
    rw [ih _ (hs ++ [st.next]) hlt2]
    have hmapA : List.map (fun i =>
        (({ st with next := (st.next + 1) % u32Mod,
                    sessions := if st.next ∈ st.sessions then st.sessions
                      else st.sessions ++ [st.next] } : MgrState).next + i) % u32Mod)
          (List.range n)
        = List.map ((fun i => (st.next + i) % u32Mod) ∘ Nat.succ) (List.range n) := by
      refine List.map_congr_left ?_
      intro i _
      show ((st.next + 1) % u32Mod + i) % u32Mod = (st.next + Nat.succ i) % u32Mod
      rw [Nat.mod_add_mod]
      congr 1
      omega
    rw [hmapA, List.range_succ_eq_map, List.map_cons, List.map_map, List.append_cons]
    simp [Nat.mod_eq_of_lt hlt]

-- The name-shadowing linter infers the head of every hypothesis type;
-- on `Chain' (· < ·)` over the 2^32-element run it unfolds the match on
-- the list and exceeds its recursion budget, so it is off for this
-- theorem only (the statement and proof are unaffected).
set_option linter.constructorNameAsVariable false in
/-- C2 counterexample: `next_id` is a `u32`, so `*next += 1` wraps at
`2^32`; after `2^32 + 1` successful creates the returned handles
contain 0 (not positive), contain the handle 1 twice (assigned to two
different sessions within one process lifetime), and are not strictly
increasing. -/
theorem pty_handle_allocation_cex :
    (0 : Nat) ∈ (runMgr (List.replicate (u32Mod + 1)
        (MgrOp.create CreateOutcome.success))).2 ∧
    ¬ (runMgr (List.replicate (u32Mod + 1)
        (MgrOp.create CreateOutcome.success))).2.Nodup ∧
    ¬ List.Chain' (· < ·) (runMgr (List.replicate (u32Mod + 1)
        (MgrOp.create CreateOutcome.success))).2 := by
  have hone : initMgr.next < u32Mod := by
    show (1 : Nat) < u32Mod
    rw [u32Mod_eq]
    omega
  have hrun0 := runMgr_success_replicate (u32Mod + 1) initMgr [] hone
  rw [List.nil_append] at hrun0
  have hdef : (runMgr (List.replicate (u32Mod + 1) (MgrOp.create CreateOutcome.success))).2
      = ((List.replicate (u32Mod + 1) (MgrOp.create CreateOutcome.success)).foldl
          mgrStep (initMgr, [])).2 := rfl
  have hrun : (runMgr (List.replicate (u32Mod + 1) (MgrOp.create CreateOutcome.success))).2
      = (List.range (u32Mod + 1)).map (fun i => (initMgr.next + i) % u32Mod) :=
    hdef.trans hrun0
  have hnotnodup : ¬ (runMgr (List.replicate (u32Mod + 1)
      (MgrOp.create CreateOutcome.success))).2.Nodup := by
    intro hnd
    rw [hrun] at hnd
    have hlen : ((List.range (u32Mod + 1)).map fun i => (initMgr.next + i) % u32Mod).length
        = u32Mod + 1 := by
      rw [List.length_map, List.length_range]
    have hi : (0 : Nat)
        < ((List.range (u32Mod + 1)).map fun i => (initMgr.next + i) % u32Mod).length := by
      rw [hlen]
      exact Nat.succ_pos _
    have hj : u32Mod
        < ((List.range (u32Mod + 1)).map fun i => (initMgr.next + i) % u32Mod).length := by
      rw [hlen]
      exact Nat.lt_succ_self _
    have hval : ((List.range (u32Mod + 1)).map fun i => (initMgr.next + i) % u32Mod)[0]
        = ((List.range (u32Mod + 1)).map fun i => (initMgr.next + i) % u32Mod)[u32Mod] := by
      rw [List.getElem_map, List.getElem_map, List.getElem_range, List.getElem_range]
      show (1 + 0) % u32Mod = (1 + u32Mod) % u32Mod
      rw [u32Mod_eq]
    have h0M : (0 : Nat) = u32Mod := (hnd.getElem_inj_iff).1 hval
    rw [u32Mod_eq] at h0M
    omega
  refine ⟨?_, hnotnodup, ?_⟩
  · rw [hrun]
    refine List.mem_map.2 ⟨u32Mod - 1, List.mem_range.2 (by rw [u32Mod_eq]; omega), ?_⟩
    show (1 + (u32Mod - 1)) % u32Mod = 0
    rw [u32Mod_eq]
  · intro hch
    have hnn := hnotnodup
    generalize (runMgr (List.replicate (u32Mod + 1)
      (MgrOp.create CreateOutcome.success))).2 = L at hch hnn
    exact hnn (List.chain'_iff_pairwise.1 hch).nodup

/-- C2 (amended, corrected): for every operation sequence in which
fewer than `2^32` ids are consumed — i.e. the `u32` counter never wraps,
which covers any realistic process lifetime — the handles returned by
successful `create` calls are strictly increasing and positive, no
handle is ever assigned to two sessions, and, whenever additionally no
`create` fails after consuming an id (thread-spawn failure), they are
exactly `1, 2, 3, …`, starting at 1.  Without the bound the claim is
false: the wraparound reuses handles (`pty_handle_allocation_cex`). -/
theorem pty_handle_allocation (ops : List MgrOp)
    (hbound : allocCount ops + 2 ≤ u32Mod) :
    List.Chain' (· < ·) (runMgr ops).2 ∧
    (∀ h ∈ (runMgr ops).2, 1 ≤ h) ∧
    (runMgr ops).2.Nodup ∧
    ((∀ op ∈ ops, op ≠ MgrOp.create CreateOutcome.failAfterAlloc) →
      (runMgr ops).2 = List.range' 1 (runMgr ops).2.length) := by
  have hinit : MgrInvW initMgr [] 0 := by
    refine ⟨?_, List.chain'_nil, by simp⟩
    show (1 : Nat) = (1 + 0) % u32Mod
    rw [u32Mod_eq]
  have hb : 0 + allocCount ops + 1 ≤ u32Mod := by omega
  have hinv := mgrInvW_foldl ops initMgr [] 0 hinit hb
  rw [Nat.zero_add] at hinv
  obtain ⟨h1, h2, h3⟩ := hinv
  refine ⟨h2, fun h hm => (h3 h hm).1, ?_, fun hops => ?_⟩
  · exact (List.chain'_iff_pairwise.1 h2).nodup
  · have hn0 : initMgr.next = (1 + 0) % u32Mod := by
      show (1 : Nat) = (1 + 0) % u32Mod
      rw [u32Mod_eq]
    have hr := mgrInvWR_foldl ops initMgr [] 0 hn0 rfl hb hops
    rw [Nat.zero_add] at hr
    have hdef2 : (runMgr ops).2 = (ops.foldl mgrStep (initMgr, [])).2 := rfl
    rw [hdef2, hr, List.length_range']

/-- C2 witness: a concrete run (with an early create failure, a write
and a close) stays far below the wrap bound and yields exactly the
handles 1, 2, 3. -/
theorem pty_handle_allocation_witness :
    (runMgr [MgrOp.create CreateOutcome.success, MgrOp.write 1 true,
      MgrOp.create CreateOutcome.failBeforeAlloc, MgrOp.create CreateOutcome.success,
      MgrOp.close 1, MgrOp.create CreateOutcome.success]).2
      = List.range' 1 (runMgr [MgrOp.create CreateOutcome.success, MgrOp.write 1 true,
          MgrOp.create CreateOutcome.failBeforeAlloc, MgrOp.create CreateOutcome.success,
          MgrOp.close 1, MgrOp.create CreateOutcome.success]).2.length :=
  (pty_handle_allocation _ (by decide)).2.2.2 (by decide)

/-- C8 (confirmed): `close` always returns success; closing an unknown
(never-assigned or already-closed) handle leaves the registry
untouched; and closing the same handle twice leaves exactly the state
of closing it once.  (The `Nodup` hypothesis reflects the uniqueness of
`HashMap` keys: handles are allocated from a strictly increasing
counter and never assigned twice.) -/
theorem pty_close_idempotent (st : MgrState) (h : Nat) (hnd : st.sessions.Nodup) :
    (closeFn st h).1 = Except.ok () ∧
    (h ∉ st.sessions → (closeFn st h).2 = st) ∧
    (closeFn (closeFn st h).2 h).2 = (closeFn st h).2 := by
  refine ⟨closeFn_ok st h, fun hm => ?_, ?_⟩
  · unfold closeFn
    rw [if_neg hm]
  · by_cases hm : h ∈ st.sessions
    · have hst : (closeFn st h).2
          = { st with sessions := st.sessions.erase h, killed := st.killed ++ [h] } := by
        unfold closeFn
        rw [if_pos hm]
      have hm2 : h ∉ st.sessions.erase h := hnd.not_mem_erase
      rw [hst]
      simp only [closeFn]
      rw [if_neg hm2]
    · have hst : (closeFn st h).2 = st := by
        unfold closeFn
        rw [if_neg hm]
      rw [hst]
      unfold closeFn
      rw [if_neg hm]

/-- C8 witness: closing an unknown handle in a concrete registry is a
success and a no-op. -/
theorem pty_close_idempotent_witness :
    (closeFn { next := 3, sessions := [1, 2], killed := [] } 5).2
      = { next := 3, sessions := [1, 2], killed := [] } :=
  ((pty_close_idempotent { next := 3, sessions := [1, 2], killed := [] } 5
    (by decide)).2.1 (by decide))

end PtyMgr

namespace PtyFlush

theorem allAscii_iff (l : List Nat) : allAscii l = true ↔ ∀ b ∈ l, b < 0x80 := by
  unfold allAscii
  rw [List.all_eq_true]
  constructor
  · intro h b hb
    exact of_decide_eq_true (h b hb)
  · intro h b hb
    exact decide_eq_true (h b hb)

theorem allAscii_append (l₁ l₂ : List Nat) :
    allAscii (l₁ ++ l₂) = true ↔ allAscii l₁ = true ∧ allAscii l₂ = true := by
  unfold allAscii
  rw [List.all_append, Bool.and_eq_true]

theorem utf8Lossy_ascii (l : List Nat) (h : allAscii l = true) : utf8Lossy l = l := by
  induction l with
  | nil => rw [utf8Lossy.eq_def]
  | cons b rest ih =>
    rw [allAscii_iff] at h
    have hb : b < 0x80 := h b (List.mem_cons_self b rest)
    have hrest : allAscii rest = true := by
      rw [allAscii_iff]
      exact fun x hx => h x (List.mem_cons_of_mem b hx)
    rw [utf8Lossy.eq_def]
    simp only [if_pos hb, ih hrest]

theorem chunksMax_flatten (l : List Nat) : (chunksMax l).flatten = l := by
  induction l using chunksMax.induct with
  | case1 => simp [chunksMax]
  | case2 l hne ih =>
    rw [chunksMax]
    · rw [List.flatten_cons, ih, List.take_append_drop]

theorem chunksMax_mem_mem (l c : List Nat) (hc : c ∈ chunksMax l) :
    ∀ b ∈ c, b ∈ l := by
  induction l using chunksMax.induct with
  | case1 => simp [chunksMax] at hc
  | case2 l hne ih =>
    rw [chunksMax] at hc
    rw [List.mem_cons] at hc
    rcases hc with hc | hc
    · subst hc
      exact fun b hb => List.take_subset _ _ hb
    · exact fun b hb => List.drop_subset _ _ (ih hc b hb)

theorem dataConcat_append (e₁ e₂ : List Ev) :
    dataConcat (e₁ ++ e₂) = dataConcat e₁ ++ dataConcat e₂ := by
  unfold dataConcat
  rw [List.map_append, List.flatten_append]

theorem exitCount_append (e₁ e₂ : List Ev) :
    exitCount (e₁ ++ e₂) = exitCount e₁ + exitCount e₂ := by
  unfold exitCount
  rw [List.countP_append]

theorem exitCount_data_map (cs : List (List Nat)) (f : List Nat → List Nat) :
    exitCount (cs.map fun c => Ev.data (f c)) = 0 := by
  unfold exitCount
  rw [List.countP_eq_zero]
  intro e he
  rw [List.mem_map] at he
  obtain ⟨c, _, hc⟩ := he
  rw [← hc]
  simp

theorem dataConcat_data_map_ascii (cs : List (List Nat))
    (h : ∀ c ∈ cs, utf8Lossy c = c) :
    dataConcat (cs.map fun c => Ev.data (utf8Lossy c)) = cs.flatten := by
  induction cs with
  | nil => rfl
  | cons c rest ih =>
    rw [List.map_cons, List.flatten_cons]
    have h1 : dataConcat (Ev.data (utf8Lossy c) :: rest.map fun c => Ev.data (utf8Lossy c))
        = utf8Lossy c ++ dataConcat (rest.map fun c => Ev.data (utf8Lossy c)) := by
      unfold dataConcat
      rw [List.map_cons, List.flatten_cons]
    rw [h1, h c (List.mem_cons_self c rest),
      ih fun x hx => h x (List.mem_cons_of_mem c hx)]

theorem reach_applyLabel (s : FlState) (l : FlLabel) (hr : Reach s) :
    Reach (applyLabel s l) := by
  unfold applyLabel
  cases hs : step s l with
  | none => exact hr
  | some t => exact Reach.next hr hs

theorem reach_execFrom (ls : List FlLabel) (s : FlState) (hr : Reach s) :
    Reach (execFrom s ls) := by
  induction ls generalizing s with
  | nil => exact hr
  | cons l rest ih => exact ih (applyLabel s l) (reach_applyLabel s l hr)

theorem exec_reach (ls : List FlLabel) : Reach (exec ls) :=
  reach_execFrom ls initState Reach.init

theorem reach_good (s : FlState) (hr : Reach s) : GoodFl s := by
  induction hr with
  | init =>
    refine ⟨?_, ?_, ?_, ?_, ?_⟩ <;>
      simp [initState, exitCount, dataConcat, pendingOf]
  | @next s t l hr' hstep ih =>
    obtain ⟨g1, g2, g3, g4, g5⟩ := ih
    obtain ⟨buf, dn, pc, evs, pr⟩ := s
    cases l with
    | append c =>
      simp only [step] at hstep
      cases dn with
      | true => simp at hstep
      | false =>
        simp only [Bool.false_eq_true, if_false, Option.some.injEq] at hstep
        subst hstep
        refine ⟨g1, g2, g3, g4, fun ha => ?_⟩
        have ha' : allAscii (pr ++ c) = true := ha
        rw [allAscii_append] at ha'
        have h5 := g5 ha'.1
        cases pc with
        | loop =>
          show dataConcat evs ++ (buf ++ c) = pr ++ c
          have h5' : dataConcat evs ++ buf = pr := h5
          rw [← List.append_assoc, h5']
        | emitting d =>
          show dataConcat evs ++ (d ++ (buf ++ c)) = pr ++ c
          have h5' : dataConcat evs ++ (d ++ buf) = pr := h5
          simp only [← List.append_assoc] at h5' ⊢
          rw [h5']
        | final =>
          show dataConcat evs ++ (buf ++ c) = pr ++ c
          have h5' : dataConcat evs ++ buf = pr := h5
          rw [← List.append_assoc, h5']
        | exited =>
          have hcontra := g2 rfl
          nomatch hcontra
    | setDone =>
      simp only [step] at hstep
      cases dn with
      | true => simp at hstep
      | false =>
        simp only [Bool.false_eq_true, if_false, Option.some.injEq] at hstep
        subst hstep
        exact ⟨fun _ => rfl, fun _ => rfl, g3, g4, fun ha => g5 ha⟩
    | tick =>
      simp only [step] at hstep
      cases pc with
      | emitting d => simp at hstep
      | final => simp at hstep
      | exited => simp at hstep
      | loop =>
        by_cases hb : buf = []
        · subst hb
          cases dn with
          | false =>
            simp at hstep
            subst hstep
            exact ⟨g1, g2, g3, g4, g5⟩
          | true =>
            simp at hstep
            subst hstep
            have h3 : exitCount evs = 0 := by simpa using g3
            refine ⟨?_, ?_, ?_, ?_, ?_⟩
            · intro _
              rfl
            · intro h
              simp at h
            · simpa using h3
            · intro h
              simp at h
            · intro ha
              exact g5 ha
        · rw [if_pos rfl, if_neg hb] at hstep
          rw [Option.some.injEq] at hstep
          subst hstep
          have h3 : exitCount evs = 0 := by simpa using g3
          refine ⟨?_, ?_, ?_, ?_, ?_⟩
          · intro h
            simp at h
          · intro h
            simp at h
          · simpa using h3
          · intro h
            simp at h
          · intro ha
            have h5 := g5 ha
            show dataConcat evs ++ (buf ++ []) = pr
            rw [List.append_nil]
            exact h5
    | emitCheck =>
      simp only [step] at hstep
      cases pc with
      | loop => simp at hstep
      | final => simp at hstep
      | exited => simp at hstep
      | emitting d =>
        rw [Option.some.injEq] at hstep
        subst hstep
        have h3 : exitCount evs = 0 := by simpa using g3
        cases dn <;>
        · refine ⟨?_, ?_, ?_, ?_, ?_⟩
          · intro h
            first
            | rfl
            | simp at h
          · intro h
            simp at h
          · simp [exitCount_append, exitCount_data_map, h3]
          · intro h
            simp at h
          · intro ha
            have ha' : allAscii pr = true := ha
            have h5' : dataConcat evs ++ (d ++ buf) = pr := g5 ha'
            have hsub : ∀ c ∈ chunksMax d, utf8Lossy c = c := by
              intro c hc
              refine utf8Lossy_ascii c ?_
              rw [allAscii_iff]
              intro b hbc
              have hbd : b ∈ d := chunksMax_mem_mem d c hc b hbc
              have hbpr : b ∈ pr := by
                rw [← h5']
                exact List.mem_append_right _ (List.mem_append_left _ hbd)
              exact (allAscii_iff pr).1 ha' b hbpr
            show dataConcat (evs ++ (chunksMax d).map fun c => Ev.data (utf8Lossy c))
                ++ buf = pr
            rw [dataConcat_append, dataConcat_data_map_ascii _ hsub, chunksMax_flatten,
              List.append_assoc]
            exact h5'
    | finalFlush =>
      simp only [step] at hstep
      cases pc with
      | loop => simp at hstep
      | emitting d => simp at hstep
      | exited => simp at hstep
      | final =>
        rw [if_pos rfl, Option.some.injEq] at hstep
        subst hstep
        have hdn : dn = true := g1 rfl
        subst hdn
        have h3 : exitCount evs = 0 := by simpa using g3
        refine ⟨?_, ?_, ?_, ?_, ?_⟩
        · intro h
          simp at h
        · intro _
          rfl
        · show exitCount (evs ++ (if buf = [] then [] else [Ev.data (utf8Lossy buf)])
              ++ [Ev.exit]) = if (FlPC.exited = FlPC.exited) then 1 else 0
          rw [exitCount_append, exitCount_append, h3]
          by_cases hb : buf = []
          · rw [if_pos hb]
            decide
          · rw [if_neg hb]
            rfl
        · intro _
          show ((evs ++ (if buf = [] then [] else [Ev.data (utf8Lossy buf)]))
              ++ [Ev.exit]).getLast? = some Ev.exit
          exact List.getLast?_concat _
        · intro ha
          have ha' : allAscii pr = true := ha
          have h5' : dataConcat evs ++ buf = pr := g5 ha'
          show dataConcat (evs ++ (if buf = [] then [] else [Ev.data (utf8Lossy buf)])
              ++ [Ev.exit]) ++ ([] : List Nat) = pr
          rw [List.append_nil, dataConcat_append, dataConcat_append]
          by_cases hb : buf = []
          · rw [if_pos hb]
            show dataConcat evs ++ dataConcat [] ++ dataConcat [Ev.exit] = pr
            rw [hb, List.append_nil] at h5'
            simpa [dataConcat] using h5'
          · rw [if_neg hb]
            have hbuf : utf8Lossy buf = buf := by
              refine utf8Lossy_ascii buf ?_
              rw [allAscii_iff]
              intro b hbb
              have hbpr : b ∈ pr := by
                rw [← h5']
                exact List.mem_append_right _ hbb
              exact (allAscii_iff pr).1 ha' b hbpr
            have hdc : dataConcat [Ev.data (utf8Lossy buf)] = utf8Lossy buf := by
              simp [dataConcat]
            have hde : dataConcat [Ev.exit] = [] := by
              simp [dataConcat]
            rw [hdc, hde, hbuf, List.append_nil]
            exact h5'

theorem flusher_progress (s : FlState) (hd : s.done = true) :
    ∃ ls : List FlLabel, ls.length ≤ 3 ∧ (execFrom s ls).pc = FlPC.exited := by
  obtain ⟨buf, dn, pc, evs, pr⟩ := s
  have hd' : dn = true := hd
  subst hd'
  cases pc with
  | exited => exact ⟨[], by simp, rfl⟩
  | final => exact ⟨[FlLabel.finalFlush], by simp, rfl⟩
  | emitting d => exact ⟨[FlLabel.emitCheck, FlLabel.finalFlush], by simp, rfl⟩
  | loop =>
    by_cases hb : buf = []
    · subst hb
      exact ⟨[FlLabel.tick, FlLabel.finalFlush], by simp, rfl⟩
    · refine ⟨[FlLabel.tick, FlLabel.emitCheck, FlLabel.finalFlush], by simp, ?_⟩
      have h1 : applyLabel ⟨buf, true, FlPC.loop, evs, pr⟩ FlLabel.tick
          = ⟨[], true, FlPC.emitting buf, evs, pr⟩ := by
        simp [applyLabel, step, hb]
      show (applyLabel (applyLabel (applyLabel ⟨buf, true, FlPC.loop, evs, pr⟩
          FlLabel.tick) FlLabel.emitCheck) FlLabel.finalFlush).pc = FlPC.exited
      rw [h1]
      rfl

theorem chunksMax_of_le (l : List Nat) (h : l.length ≤ MAX_FLUSH_BYTES)
    (hne : l ≠ []) : chunksMax l = [l] := by
  cases l with
  | nil => exact absurd rfl hne
  | cons x xs =>
    rw [chunksMax]
    rw [List.take_of_length_le h, List.drop_of_length_le h]
    rw [chunksMax]

/-- C7 (confirmed): in every reachable state, the number of `pty:exit`
events is one once the flusher has terminated and zero before (in
particular at most one ever, and none before the stream has ended,
since termination implies the finished flag was observed); the exit
event is the last event emitted; and once the finished flag is set the
flusher terminates within at most three more of its steps, performing
the final drain-and-publish pass on the way (`reach_good`). -/
theorem pty_exit_exactly_once (s : FlState) (hr : Reach s) :
    exitCount s.events = (if s.pc = FlPC.exited then 1 else 0) ∧
    (s.pc = FlPC.exited → s.done = true ∧ s.events.getLast? = some Ev.exit) ∧
    (s.done = true →
      ∃ ls : List FlLabel, ls.length ≤ 3 ∧ (execFrom s ls).pc = FlPC.exited) := by
  obtain ⟨q1, q2, q3, q4, q5⟩ := reach_good s hr
  exact ⟨q3, fun hpc => ⟨q2 hpc, q4 hpc⟩, fun hd => flusher_progress s hd⟩

/-- C7 witness: a concrete completed session has exactly one exit
event. -/
theorem pty_exit_exactly_once_witness :
    exitCount (exec [FlLabel.append [10], FlLabel.setDone, FlLabel.tick,
        FlLabel.emitCheck, FlLabel.finalFlush]).events
      = (if (exec [FlLabel.append [10], FlLabel.setDone, FlLabel.tick,
          FlLabel.emitCheck, FlLabel.finalFlush]).pc = FlPC.exited then 1 else 0) :=
  (pty_exit_exactly_once _ (exec_reach _)).1

/-- C1 (amended, corrected): once the flusher has terminated, the
concatenation of all published `pty:data` payloads equals the
concatenation of all byte chunks the reader took from the PTY, in
order, PROVIDED the produced bytes are plain ASCII (on which
`String::from_utf8_lossy` is the identity); without that proviso the
payloads are the lossy decodings and bytes can be altered. -/
theorem pty_data_concat_ascii (s : FlState) (hr : Reach s)
    (ha : allAscii s.produced = true) (hpc : s.pc = FlPC.exited) :
    dataConcat s.events = s.produced := by
  obtain ⟨q1, q2, q3, q4, q5⟩ := reach_good s hr
  have h5 := q5 ha
  have hp : pendingOf s = [] := by
    unfold pendingOf
    rw [hpc]
  rw [hp, List.append_nil] at h5
  exact h5

/-- C1 witness: a concrete ASCII session delivers exactly the bytes the
reader took. -/
theorem pty_data_concat_ascii_witness :
    dataConcat (exec [FlLabel.append [104, 105], FlLabel.setDone, FlLabel.tick,
        FlLabel.emitCheck, FlLabel.finalFlush]).events
      = (exec [FlLabel.append [104, 105], FlLabel.setDone, FlLabel.tick,
          FlLabel.emitCheck, FlLabel.finalFlush]).produced :=
  pty_data_concat_ascii _ (exec_reach _) (by decide) (by decide)

theorem utf8Lossy_ff : utf8Lossy [0xFF] = [0xEF, 0xBF, 0xBD] := by
  rw [utf8Lossy.eq_def]
  norm_num
  rw [utf8Lossy.eq_def]
  rfl

/-- C1 counterexample: the reader takes the single byte 0xFF (not valid
UTF-8); the session's published payload is the replacement character's
bytes EF BF BD, not FF — the bytes were altered between the shared
buffer and publication, because pty.rs:193/209 convert each chunk with
`String::from_utf8_lossy`. -/
theorem pty_data_concat_cex :
    (exec [FlLabel.append [0xFF], FlLabel.setDone, FlLabel.tick, FlLabel.emitCheck,
        FlLabel.finalFlush]).pc = FlPC.exited ∧
    (exec [FlLabel.append [0xFF], FlLabel.setDone, FlLabel.tick, FlLabel.emitCheck,
        FlLabel.finalFlush]).produced = [0xFF] ∧
    dataConcat (exec [FlLabel.append [0xFF], FlLabel.setDone, FlLabel.tick,
        FlLabel.emitCheck, FlLabel.finalFlush]).events = [0xEF, 0xBF, 0xBD] ∧
    dataConcat (exec [FlLabel.append [0xFF], FlLabel.setDone, FlLabel.tick,
        FlLabel.emitCheck, FlLabel.finalFlush]).events
      ≠ (exec [FlLabel.append [0xFF], FlLabel.setDone, FlLabel.tick, FlLabel.emitCheck,
          FlLabel.finalFlush]).produced := by
  have hc : chunksMax [0xFF] = [[0xFF]] :=
    chunksMax_of_le _ (by norm_num [MAX_FLUSH_BYTES]) (by simp)
  have hsplit : exec [FlLabel.append [0xFF], FlLabel.setDone, FlLabel.tick,
      FlLabel.emitCheck, FlLabel.finalFlush]
      = applyLabel (applyLabel (execFrom initState
          [FlLabel.append [0xFF], FlLabel.setDone, FlLabel.tick])
        FlLabel.emitCheck) FlLabel.finalFlush := rfl
  have e3 : execFrom initState [FlLabel.append [0xFF], FlLabel.setDone, FlLabel.tick]
      = ⟨[], true, FlPC.emitting [0xFF], [], [0xFF]⟩ := rfl
  have h4 : applyLabel (⟨[], true, FlPC.emitting [0xFF], [], [0xFF]⟩ : FlState)
      FlLabel.emitCheck
      = ⟨[], true, FlPC.final, [Ev.data [0xEF, 0xBF, 0xBD]], [0xFF]⟩ := by
    simp [applyLabel, step, hc, utf8Lossy_ff]
  have h5 : applyLabel (⟨[], true, FlPC.final, [Ev.data [0xEF, 0xBF, 0xBD]], [0xFF]⟩ :
      FlState) FlLabel.finalFlush
      = ⟨[], true, FlPC.exited, [Ev.data [0xEF, 0xBF, 0xBD], Ev.exit], [0xFF]⟩ := by
    simp [applyLabel, step]
  rw [hsplit, e3, h4, h5]
  refine ⟨rfl, rfl, by simp [dataConcat], ?_⟩
  simp [dataConcat]

theorem final_flush_unchunked (c : List Nat) (hne : c ≠ []) :
    (exec [FlLabel.append [65], FlLabel.tick, FlLabel.append c, FlLabel.setDone,
        FlLabel.emitCheck, FlLabel.finalFlush]).events
      = [Ev.data [65], Ev.data (utf8Lossy c), Ev.exit] := by
  have hc65 : chunksMax [65] = [[65]] :=
    chunksMax_of_le _ (by norm_num [MAX_FLUSH_BYTES]) (by simp)
  have hu65 : utf8Lossy [65] = [65] := utf8Lossy_ascii _ (by decide)
  have hsplit : exec [FlLabel.append [65], FlLabel.tick, FlLabel.append c,
      FlLabel.setDone, FlLabel.emitCheck, FlLabel.finalFlush]
      = applyLabel (applyLabel (applyLabel (applyLabel (execFrom initState
          [FlLabel.append [65], FlLabel.tick]) (FlLabel.append c))
        FlLabel.setDone) FlLabel.emitCheck) FlLabel.finalFlush := rfl
  have e2 : execFrom initState [FlLabel.append [65], FlLabel.tick]
      = ⟨[], false, FlPC.emitting [65], [], [65]⟩ := rfl
  have h3 : applyLabel (⟨[], false, FlPC.emitting [65], [], [65]⟩ : FlState)
      (FlLabel.append c) = ⟨c, false, FlPC.emitting [65], [], 65 :: c⟩ := by
    simp [applyLabel, step]
  have h4 : applyLabel (⟨c, false, FlPC.emitting [65], [], 65 :: c⟩ : FlState)
      FlLabel.setDone = ⟨c, true, FlPC.emitting [65], [], 65 :: c⟩ := by
    simp [applyLabel, step]
  have h5 : applyLabel (⟨c, true, FlPC.emitting [65], [], 65 :: c⟩ : FlState)
      FlLabel.emitCheck = ⟨c, true, FlPC.final, [Ev.data [65]], 65 :: c⟩ := by
    simp [applyLabel, step, hc65, hu65]
  have h6 : applyLabel (⟨c, true, FlPC.final, [Ev.data [65]], 65 :: c⟩ : FlState)
      FlLabel.finalFlush
      = ⟨c, true, FlPC.exited, [Ev.data [65], Ev.data (utf8Lossy c), Ev.exit],
          65 :: c⟩ := by
    simp [applyLabel, step, hne]
  rw [hsplit, e2, h3, h4, h5, h6]

theorem allAscii_replicate (n b : Nat) (hb : b < 0x80) :
    allAscii (List.replicate n b) = true := by
  rw [allAscii_iff]
  intro x hx
  rw [List.eq_of_mem_replicate hx]
  exact hb

/-- C6 (code bug): the main-loop emission path chunks drained data to
at most `MAX_FLUSH_BYTES`, but the final flush (pty.rs:206-215) emits
the ENTIRE remaining buffer as one event without chunking.  If 65537
bytes arrive between the flusher's buffer take and its finished-flag
load and the reader then finishes, the final flush publishes one
`pty:data` event whose payload exceeds the documented 64 KiB ceiling. -/
theorem pty_final_flush_oversized :
    ∃ p, Ev.data p ∈ (exec [FlLabel.append [65], FlLabel.tick,
        FlLabel.append (List.replicate 65537 65), FlLabel.setDone,
        FlLabel.emitCheck, FlLabel.finalFlush]).events ∧
      MAX_FLUSH_BYTES < p.length := by
  have hne : List.replicate 65537 65 ≠ [] := by
    simp only [ne_eq, List.replicate_eq_nil_iff]
    norm_num
  refine ⟨List.replicate 65537 65, ?_, ?_⟩
  · rw [final_flush_unchunked (List.replicate 65537 65) hne]
    rw [utf8Lossy_ascii _ (allAscii_replicate 65537 65 (by norm_num))]
    exact List.mem_cons_of_mem _ (List.mem_cons_self _ _)
  · rw [List.length_replicate]
    norm_num [MAX_FLUSH_BYTES]

end PtyFlush

